import Mathlib

/-!
Verification of the core codec engine of a reflection-driven JSON library
against its natural-language specification.  The Go sources are embedded
shallowly: bytes are `Nat` (ASCII codes), byte buffers are `List Nat`,
fallible routines return `Except`, and the stateful encoder/decoder
objects become explicit records that every operation threads through.
Definitions are translated from the Go sources; the few components whose
source is not part of the extract (the opcode interpreter, the string
decoder, the struct decoder's runtime dispatch) are modelled from the
specification and say so in their doc comments.
-/

set_option maxHeartbeats 1000000
set_option maxRecDepth 8000

namespace GoJson

/-- Error taxonomy of the engine.  `unexpectedEndOfJSON` embeds the
source's `errUnexpectedEndOfJSON(typeName, offset)` (the `UnexpectedEOF`
class of the spec); the remaining constructors embed the other error
classes named by the spec's taxonomy (section 7), so that error classes
are distinguishable in statements. -/
inductive DecodeError where
  | decodePointer
  | unexpectedEndOfJSON (typeName : String) (cursor : Nat)
  | unexpectedToken (expected : String) (got : Nat) (cursor : Nat)
  | unknownField (key : String)
  | unsupportedType (typeName : String)
  | numberSyntax (lit : String)
deriving DecidableEq

/-- Recognizer for the `UnexpectedToken` error class (spec section 7:
"syntactic mismatch between expected and actual input"). -/
def DecodeError.isUnexpectedToken : DecodeError → Bool
  | .unexpectedToken _ _ _ => true
  | _ => false

/-! ### Numeric scanner (src/decode_float.go) -/

/-- The 256-entry table `floatTable` from src/decode_float.go: the Go
array literal lists exactly the indices `'0'..'9'` (48–57), `'.'` (46),
`'e'` (101), `'E'` (69) and `'+'` (43) as `true`; every other entry is
the zero value `false`. -/
def floatTable (b : Nat) : Bool :=
  match b with
  | 48 | 49 | 50 | 51 | 52 | 53 | 54 | 55 | 56 | 57 => true
  | 46 => true
  | 101 => true
  | 69 => true
  | 43 => true
  | _ => false

/-- ASCII whitespace skipped by the scanners: the `' ', '\n', '\t', '\r'`
cases of the switch in `floatDecoder.decodeByte` / `decodeStreamByte`. -/
def isSpaceByte (b : Nat) : Bool :=
  b == 32 || b == 10 || b == 9 || b == 13

/-- First bytes accepted by the numeric scanner: the
`'-', '0', ..., '9'` cases of the same switches. -/
def isNumStartByte (b : Nat) : Bool :=
  b == 45 || (decide (48 ≤ b) && decide (b ≤ 57))

/-- The token-extension loop shared by `floatBytes` and the inner loop of
`floatDecoder.decodeByte`: starting at `cursor`, advance while the
current byte is marked in `floatTable`, and return the first position
whose byte is not in the table (or the end of the buffer).  The streaming
variant additionally refills at the `nul` sentinel; on a fixed buffer the
loop is exactly this function. -/
def floatExtend (buf : List Nat) (cursor : Nat) : Nat :=
  if h : cursor < buf.length then
    if floatTable (buf.getD cursor 0) then floatExtend buf (cursor + 1)
    else cursor
  else cursor
termination_by buf.length - cursor
decreasing_by simp_wf; omega

/-- Embedding of `floatDecoder.decodeByte` from src/decode_float.go:
skip ASCII whitespace; at a `'-'` or digit, extend with `floatExtend`
and return the half-open slice together with the new cursor; at any
other byte — and when the buffer runs out — return
`errUnexpectedEndOfJSON("float", cursor)`. -/
def floatDecoder.decodeByte (buf : List Nat) (cursor : Nat) :
    Except DecodeError (List Nat × Nat) :=
  if h : cursor < buf.length then
    if isSpaceByte (buf.getD cursor 0) then
      floatDecoder.decodeByte buf (cursor + 1)
    else if isNumStartByte (buf.getD cursor 0) then
      .ok ((buf.drop cursor).take (floatExtend buf (cursor + 1) - cursor),
        floatExtend buf (cursor + 1))
    else .error (.unexpectedEndOfJSON "float" cursor)
  else .error (.unexpectedEndOfJSON "float" cursor)
termination_by buf.length - cursor
decreasing_by simp_wf; omega

/-- Contents of `floatTable`: an entry is marked if and only if it is a
digit, `'.'`, `'e'`, `'E'` or `'+'`. -/
lemma floatTable_iff (b : Nat) :
    floatTable b = true ↔
      ((48 ≤ b ∧ b ≤ 57) ∨ b = 46 ∨ b = 101 ∨ b = 69 ∨ b = 43) := by
  by_cases hb : b < 256
  · have H : ∀ c, c < 256 → (floatTable c = true ↔
        ((48 ≤ c ∧ c ≤ 57) ∨ c = 46 ∨ c = 101 ∨ c = 69 ∨ c = 43)) := by decide
    exact H b hb
  · constructor
    · intro h
      exfalso
      unfold floatTable at h
      split at h
      all_goals first
        | omega
        | exact Bool.noConfusion h
    · intro h
      exfalso
      omega

/-- Characterization of the extension loop: if every byte from `i`
(inclusive) to `j` (exclusive) is in `floatTable` and position `j` is
the end of the buffer or holds a byte outside the table, the scan
started at `i` stops exactly at `j`. -/
lemma floatExtend_spec (buf : List Nat) (i j : Nat) (hij : i ≤ j)
    (hj : j ≤ buf.length)
    (htab : ∀ l, i ≤ l → l < j → floatTable (buf.getD l 0) = true)
    (hstop : j = buf.length ∨ floatTable (buf.getD j 0) = false) :
    floatExtend buf i = j := by
  have H : ∀ n i, j - i = n → i ≤ j →
      (∀ l, i ≤ l → l < j → floatTable (buf.getD l 0) = true) →
      floatExtend buf i = j := by
    intro n
    induction n with
    | zero =>
        intro i hn hij _htab
        have hji : i = j := by omega
        subst hji
        unfold floatExtend
        rcases hstop with hend | hfail
        · have hnl : ¬ i < buf.length := by omega
          rw [dif_neg hnl]
        · by_cases hlen : i < buf.length
          · rw [dif_pos hlen,
              if_neg (by simp only [hfail]; exact Bool.false_ne_true)]
          · rw [dif_neg hlen]
    | succ n ih =>
        intro i hn hij htab
        have hlt : i < j := by omega
        have hi : i < buf.length := by omega
        have htabi : floatTable (buf.getD i 0) = true := htab i le_rfl hlt
        unfold floatExtend
        rw [dif_pos hi, if_pos htabi]
        exact ih (i + 1) (by omega) (by omega)
          (fun l hl1 hl2 => htab l (by omega) hl2)
  exact H (j - i) i rfl hij htab

/-- C9: the 256-entry numeric table marks exactly the bytes `'0'`–`'9'`,
`'.'`, `'e'`, `'E'` and `'+'`; `'-'` (45) is not in the table; and a
numeric scan stops at the first subsequent byte outside that set (the
extension loop started at `i` halts exactly at the first position `j`
whose byte fails the table, or at the end of the buffer). -/
theorem floatTable_marks_and_scan_stops (b : Nat)
    (buf : List Nat) (i j : Nat) (hij : i ≤ j) (hj : j ≤ buf.length)
    (htab : ∀ l, i ≤ l → l < j → floatTable (buf.getD l 0) = true)
    (hstop : j = buf.length ∨ floatTable (buf.getD j 0) = false) :
    (floatTable b = true ↔
      ((48 ≤ b ∧ b ≤ 57) ∨ b = 46 ∨ b = 101 ∨ b = 69 ∨ b = 43))
    ∧ floatTable 45 = false
    ∧ floatExtend buf i = j :=
  ⟨floatTable_iff b, rfl, floatExtend_spec buf i j hij hj htab hstop⟩

/-- Witness for C9: concrete instance on the buffer `"12x"` — the scan
started after the leading digit stops at the `'x'`. -/
theorem floatTable_marks_and_scan_stops_witness :
    (floatTable 46 = true ↔
      ((48 ≤ 46 ∧ 46 ≤ 57) ∨ 46 = 46 ∨ 46 = 101 ∨ 46 = 69 ∨ 46 = 43))
    ∧ floatTable 45 = false
    ∧ floatExtend [49, 50, 120] 1 = 2 :=
  floatTable_marks_and_scan_stops 46 [49, 50, 120] 1 2
    (by omega) (by decide)
    (fun l hl1 hl2 => by
      have : l = 1 := by omega
      subst this
      decide)
    (Or.inr (by decide))

/-- C8 counterexample: on the input `"x"` (first non-whitespace byte is
neither `'-'` nor a digit) the scanner returns
`errUnexpectedEndOfJSON("float", 0)` — the unexpected-end-of-input error
class — and that error is not of the `UnexpectedToken` class, contrary
to the claim. -/
theorem decodeByte_bad_byte_is_eof_class :
    floatDecoder.decodeByte [120] 0
      = .error (.unexpectedEndOfJSON "float" 0)
    ∧ DecodeError.isUnexpectedToken
        (.unexpectedEndOfJSON "float" 0) = false := by
  constructor
  · unfold floatDecoder.decodeByte
    norm_num [isSpaceByte, isNumStartByte]
  · rfl

/-- C8 (amended): for every input whose first non-whitespace byte (at
position `j`, after whitespace-only positions `cursor ≤ l < j`) is
neither `'-'` nor a digit, `floatDecoder.decodeByte` fails with the
unexpected-end-of-JSON error `errUnexpectedEndOfJSON("float", j)` — the
same error class used when the input ends inside a token — not with a
distinct `UnexpectedToken`-class error. -/
theorem decodeByte_nonnumeric_first_byte (buf : List Nat) (cursor j : Nat)
    (hj : j < buf.length) (hcj : cursor ≤ j)
    (hws : ∀ l, cursor ≤ l → l < j → isSpaceByte (buf.getD l 0) = true)
    (hbad : isSpaceByte (buf.getD j 0) = false
      ∧ isNumStartByte (buf.getD j 0) = false) :
    floatDecoder.decodeByte buf cursor
      = .error (.unexpectedEndOfJSON "float" j) := by
  have H : ∀ n c, j - c = n → c ≤ j →
      (∀ l, c ≤ l → l < j → isSpaceByte (buf.getD l 0) = true) →
      floatDecoder.decodeByte buf c
        = .error (.unexpectedEndOfJSON "float" j) := by
    intro n
    induction n with
    | zero =>
        intro c hn hcj _hws
        have hcje : c = j := by omega
        subst hcje
        unfold floatDecoder.decodeByte
        rw [dif_pos (by omega : c < buf.length),
          if_neg (by simp only [hbad.1]; exact Bool.false_ne_true),
          if_neg (by simp only [hbad.2]; exact Bool.false_ne_true)]
    | succ n ih =>
        intro c hn hcj hws
        have hlt : c < j := by omega
        have hcl : c < buf.length := by omega
        have hwsc : isSpaceByte (buf.getD c 0) = true := hws c le_rfl hlt
        unfold floatDecoder.decodeByte
        rw [dif_pos hcl, if_pos hwsc]
        exact ih (c + 1) (by omega) (by omega)
          (fun l h1 h2 => hws l (by omega) h2)
  exact H (j - cursor) cursor rfl hcj hws

/-- Witness for C8's amended theorem: on the input `" x"` the scanner
skips the space and fails at the `'x'` with
`errUnexpectedEndOfJSON("float", 1)`. -/
theorem decodeByte_nonnumeric_first_byte_witness :
    floatDecoder.decodeByte [32, 120] 0
      = .error (.unexpectedEndOfJSON "float" 1) :=
  decodeByte_nonnumeric_first_byte [32, 120] 0 1 (by decide) (by omega)
    (fun l h1 h2 => by
      have : l = 0 := by omega
      subst this
      decide)
    ⟨by decide, by decide⟩

/-! ### Struct field map compilation (src/unnamed/part_000, compileStruct) -/

/-- A record field as `Decoder.compileStruct` sees it through reflection.
`tagOpts` is the precomputed `strings.Split(field.Tag.Get("json"), ",")`
(total on strings, never the empty list; an empty tag yields `[""]`).
`pkgPathNonempty` is `field.PkgPath != ""` (a private field). -/
structure StructField where
  name : String
  tagOpts : List String
  offset : Nat
  pkgPathNonempty : Bool
  anonymous : Bool
deriving DecidableEq

/-- The `structFieldSet{dec, offset}` stored per field.  The compiled
decoder `dec` is abstracted by `decIdx`, the declaration index of the
field it was compiled for: distinct fields produce distinct decoder
objects, which is all that collision resolution can observe. -/
structure structFieldSet where
  decIdx : Nat
  offset : Nat
deriving DecidableEq

/-- Embedding of `Decoder.isIgnoredStructField`: a private non-embedded
field, or a field whose whole json tag is the literal `-` (which splits
to `["-"]`), is ignored. -/
def Decoder.isIgnoredStructField (f : StructField) : Bool :=
  (f.pkgPathNonempty && !f.anonymous) || (f.tagOpts == ["-"])

/-- The serialized key name computed in `compileStruct`: the tag's first
comma-separated option when non-empty, else the declared name. -/
def keyNameOf (f : StructField) : String :=
  match f.tagOpts with
  | [] => f.name
  | o :: _ => if o != "" then o else f.name

/-- ASCII lowercasing of one character (`'A'`–`'Z'` map down by 32). -/
def lowerChar (c : Char) : Char :=
  if 65 ≤ c.toNat ∧ c.toNat ≤ 90 then Char.ofNat (c.toNat + 32) else c

/-- The `strings.ToLower` applied to the key name in `compileStruct`,
restricted to ASCII (which covers every key a json tag or Go identifier
in the claims uses). -/
def toLowerStr (s : String) : String :=
  ⟨s.data.map lowerChar⟩

/-- The `map[string]*structFieldSet` of the source, with Go map
semantics: assignment replaces any existing binding of the key, lookup
returns the current binding. -/
abbrev FieldMap := List (String × structFieldSet)

/-- Go map assignment `fieldMap[k] = v`: the new binding replaces any
existing binding of `k`. -/
def fieldMapSet (m : FieldMap) (k : String) (v : structFieldSet) :
    FieldMap :=
  (k, v) :: m.filter (fun e => e.1 != k)

/-- Go map lookup `fieldMap[k]`. -/
def fieldMapGet (m : FieldMap) (k : String) : Option structFieldSet :=
  (m.find? (fun e => e.1 == k)).map (fun e => e.2)

/-- One iteration of the field loop of `Decoder.compileStruct`: skip an
ignored field; otherwise insert the same `structFieldSet` under the
declared name, the tag key name and the lowercased tag key name — three
Go map assignments, in that order. -/
def compileStructStep (m : FieldMap) (i : Nat) (f : StructField) :
    FieldMap :=
  if Decoder.isIgnoredStructField f then m
  else
    fieldMapSet
      (fieldMapSet (fieldMapSet m f.name ⟨i, f.offset⟩)
        (keyNameOf f) ⟨i, f.offset⟩)
      (toLowerStr (keyNameOf f)) ⟨i, f.offset⟩

/-- Embedding of `Decoder.compileStruct`: iterate the fields in
declaration order and build the field map. -/
def Decoder.compileStruct (fields : List StructField) : FieldMap :=
  (fields.enum).foldl (fun m p => compileStructStep m p.1 p.2) []

/-- The three keys inserted for a non-ignored field. -/
def fieldKeys (f : StructField) : List String :=
  [f.name, keyNameOf f, toLowerStr (keyNameOf f)]

/-- Reference lookup for the amended claim: scanning the indexed field
list with priority to LATER declarations, return the field set of the
last non-ignored field one of whose three keys is `k`. -/
def lastInsertionFor : List (Nat × StructField) → String →
    Option structFieldSet
  | [], _ => none
  | x :: xs, k =>
      match lastInsertionFor xs k with
      | some r => some r
      | none =>
          if Decoder.isIgnoredStructField x.2 = false ∧ k ∈ fieldKeys x.2
          then some ⟨x.1, x.2.offset⟩
          else none

/-- Modelled from the spec's words ("on collision the first insertion
wins"), for comparison with the source: map insertion that keeps the
first binding of a key. -/
def fieldMapSetIfAbsent (m : FieldMap) (k : String) (v : structFieldSet) :
    FieldMap :=
  if (fieldMapGet m k).isSome then m else (k, v) :: m

/-- Modelled from the spec's words: `compileStruct` as the spec describes
it, with first-insertion-wins collision behavior. -/
def compileStructFirstWins (fields : List StructField) : FieldMap :=
  (fields.enum).foldl
    (fun m p =>
      if Decoder.isIgnoredStructField p.2 then m
      else
        fieldMapSetIfAbsent
          (fieldMapSetIfAbsent
            (fieldMapSetIfAbsent m p.2.name ⟨p.1, p.2.offset⟩)
            (keyNameOf p.2) ⟨p.1, p.2.offset⟩)
          (toLowerStr (keyNameOf p.2)) ⟨p.1, p.2.offset⟩)
    []

lemma find?_filter_ne (m : FieldMap) (k k' : String) (h : k ≠ k') :
    (m.filter (fun e => e.1 != k')).find? (fun e => e.1 == k)
      = m.find? (fun e => e.1 == k) := by
  induction m with
  | nil => rfl
  | cons e t ih =>
      by_cases h1 : e.1 = k'
      · have hek : (k' == k) = false := by
          simp
          exact fun hk => h hk.symm
        simp [List.filter_cons, h1, List.find?_cons, hek, ih]
      · by_cases h2 : e.1 = k
        · simp [List.filter_cons, h1, List.find?_cons, h2, h]
        · simp [List.filter_cons, h1, List.find?_cons, h2, h, ih]

lemma fieldMapGet_set (m : FieldMap) (k k' : String) (v : structFieldSet) :
    fieldMapGet (fieldMapSet m k' v) k
      = if k = k' then some v else fieldMapGet m k := by
  unfold fieldMapGet fieldMapSet
  by_cases h : k = k'
  · subst h
    simp [List.find?_cons]
  · have hk : (k' == k) = false := by
      simp
      exact fun hk => h hk.symm
    simp [List.find?_cons, hk, find?_filter_ne m k k' h, h]

lemma fieldMapGet_compileStructStep (m : FieldMap) (i : Nat)
    (f : StructField) (k : String) :
    fieldMapGet (compileStructStep m i f) k
      = if Decoder.isIgnoredStructField f = false ∧ k ∈ fieldKeys f
        then some ⟨i, f.offset⟩ else fieldMapGet m k := by
  unfold compileStructStep
  by_cases hig : Decoder.isIgnoredStructField f = true
  · simp [hig]
  · have hig' : Decoder.isIgnoredStructField f = false := by
      simpa using hig
    rw [if_neg hig]
    rw [fieldMapGet_set, fieldMapGet_set, fieldMapGet_set]
    by_cases h1 : k = toLowerStr (keyNameOf f) <;>
      by_cases h2 : k = keyNameOf f <;>
      by_cases h3 : k = f.name <;>
      simp [fieldKeys, h1, h2, h3, hig']

/-- Priority combination of two optional lookup results. -/
def orElseFS (a b : Option structFieldSet) : Option structFieldSet :=
  match a with
  | some r => some r
  | none => b

lemma lastInsertionFor_cons (x : Nat × StructField)
    (xs : List (Nat × StructField)) (k : String) :
    lastInsertionFor (x :: xs) k
      = match lastInsertionFor xs k with
        | some r => some r
        | none =>
            if Decoder.isIgnoredStructField x.2 = false ∧ k ∈ fieldKeys x.2
            then some ⟨x.1, x.2.offset⟩
            else none := rfl

lemma fieldMapGet_foldl (l : List (Nat × StructField)) (m : FieldMap)
    (k : String) :
    fieldMapGet (l.foldl (fun m p => compileStructStep m p.1 p.2) m) k
      = orElseFS (lastInsertionFor l k) (fieldMapGet m k) := by
  induction l generalizing m with
  | nil => rfl
  | cons x xs ih =>
      simp only [List.foldl_cons]
      rw [ih, lastInsertionFor_cons]
      cases hxs : lastInsertionFor xs k with
      | some r => simp [orElseFS, hxs]
      | none =>
          simp only [hxs, orElseFS]
          rw [fieldMapGet_compileStructStep]
          by_cases hc : Decoder.isIgnoredStructField x.2 = false
              ∧ k ∈ fieldKeys x.2
          · simp [hc]
          · simp [hc]

/-- C2 (amended): for every field list and key, the compiled field map
resolves the key to the entry of the LAST insertion: three entries are
inserted per non-ignored field (declared name, tag key name, lowercased
tag key name), and when insertions collide on a key the last insertion
wins — ties resolve to the latest declaration, not the earliest. -/
theorem compileStruct_lookup_last_insertion (fields : List StructField)
    (k : String) :
    fieldMapGet (Decoder.compileStruct fields) k
      = lastInsertionFor fields.enum k := by
  unfold Decoder.compileStruct
  rw [fieldMapGet_foldl]
  cases h : lastInsertionFor fields.enum k <;> simp [orElseFS, fieldMapGet]

/-- Two-field record exercising a key collision: field 0 is declared `A`
with json tag `b` (tag options `["b"]`), field 1 is declared `B` with an
empty tag (tag options `[""]`), whose lowercased key is also `b`. -/
def exFieldsC2 : List StructField :=
  [⟨"A", ["b"], 0, false, false⟩, ⟨"B", [""], 8, false, false⟩]

/-- C2 counterexample: on `exFieldsC2` the source's `compileStruct`
resolves key `"b"` to field 1 — the LAST insertion — while the
first-insertion-wins map the claim describes resolves it to field 0;
the two field sets differ, so the claim as stated is false. -/
theorem compileStruct_first_insertion_loses :
    fieldMapGet (Decoder.compileStruct exFieldsC2) "b"
        = some ⟨1, 8⟩
    ∧ fieldMapGet (compileStructFirstWins exFieldsC2) "b"
        = some ⟨0, 0⟩
    ∧ (⟨1, 8⟩ : structFieldSet) ≠ ⟨0, 0⟩ := by
  refine ⟨by decide, by decide, by decide⟩

/-! ### Type descriptors and the compile dispatcher (src/unnamed/part_000) -/

/-- Kinds `reflect.Kind` distinguishes and `Decoder.compile` switches on.
`struct'` carries its field types (the name/tag metadata and the field
map built from it are embedded separately as `Decoder.compileStruct`);
`rmap`, `rinterface`, `rchan` and `rfunc` are kinds the switch has no
case for. -/
inductive Rtype where
  | ptr (elem : Rtype)
  | struct' (fields : List Rtype)
  | slice (elem : Rtype)
  | array (elem : Rtype) (n : Nat)
  | rint
  | rint8
  | rint16
  | rint32
  | rint64
  | ruint
  | ruint8
  | ruint16
  | ruint32
  | ruint64
  | rstring
  | rbool
  | rfloat32
  | rfloat64
  | rmap (key elem : Rtype)
  | rinterface
  | rchan (elem : Rtype)
  | rfunc

/-- The numeric writer bound during compilation (`newIntDecoder`,
`newUintDecoder`, `newFloatDecoder` receive a width-specific store
closure; the closure is abstracted by its width tag). -/
inductive NumKind where
  | i
  | i8
  | i16
  | i32
  | i64
  | u
  | u8
  | u16
  | u32
  | u64
  | f32
  | f64

/-- Decoder nodes produced by `Decoder.compile`.  Children are `Option`
because the Go constructors receive the `decoder` interface value
returned by a recursive `compile` call, which can be `nil`. -/
inductive DecoderNode where
  | ptrDec (elem : Option DecoderNode)
  | intDec (k : NumKind)
  | uintDec (k : NumKind)
  | floatDec (k : NumKind)
  | stringDec
  | boolDec
  | sliceDec (elem : Option DecoderNode) (elemSize : Nat)
  | arrayDec (elem : Option DecoderNode) (len : Nat)
  | structDec (fields : List (Option DecoderNode))

mutual

/-- Byte sizes of the amd64 ABI carried by `elem.Size()` into
`newSliceDecoder` (threaded through compilation, unused by the claims;
struct padding is ignored). -/
def rtypeSize : Rtype → Nat
  | .ptr _ => 8
  | .struct' fields => rtypeSizeList fields
  | .slice _ => 24
  | .array elem n => n * rtypeSize elem
  | .rint => 8
  | .rint8 => 1
  | .rint16 => 2
  | .rint32 => 4
  | .rint64 => 8
  | .ruint => 8
  | .ruint8 => 1
  | .ruint16 => 2
  | .ruint32 => 4
  | .ruint64 => 8
  | .rstring => 16
  | .rbool => 1
  | .rfloat32 => 4
  | .rfloat64 => 8
  | .rmap _ _ => 8
  | .rinterface => 16
  | .rchan _ => 8
  | .rfunc => 8

def rtypeSizeList : List Rtype → Nat
  | [] => 0
  | t :: ts => rtypeSize t + rtypeSizeList ts

end

mutual

/-- Embedding of `Decoder.compile`: the switch over `typ.Kind()`.  Like
the source it returns a `(decoder, error)` pair; the default case —
map, interface, channel, func and any other unhandled kind — returns
`(nil, nil)`: no decoder AND no error. -/
def Decoder.compile : Rtype → Option DecoderNode × Option DecodeError
  | .ptr elem =>
      match Decoder.compile elem with
      | (_, some err) => (none, some err)
      | (dec, none) => (some (.ptrDec dec), none)
  | .struct' fields =>
      match Decoder.compileFieldTypes fields with
      | (_, some err) => (none, some err)
      | (decs, none) => (some (.structDec decs), none)
  | .slice elem =>
      match Decoder.compile elem with
      | (_, some err) => (none, some err)
      | (dec, none) => (some (.sliceDec dec (rtypeSize elem)), none)
  | .array elem n =>
      match Decoder.compile elem with
      | (_, some err) => (none, some err)
      | (dec, none) => (some (.arrayDec dec n), none)
  | .rint => (some (.intDec .i), none)
  | .rint8 => (some (.intDec .i8), none)
  | .rint16 => (some (.intDec .i16), none)
  | .rint32 => (some (.intDec .i32), none)
  | .rint64 => (some (.intDec .i64), none)
  | .ruint => (some (.uintDec .u), none)
  | .ruint8 => (some (.uintDec .u8), none)
  | .ruint16 => (some (.uintDec .u16), none)
  | .ruint32 => (some (.uintDec .u32), none)
  | .ruint64 => (some (.uintDec .u64), none)
  | .rstring => (some .stringDec, none)
  | .rbool => (some .boolDec, none)
  | .rfloat32 => (some (.floatDec .f32), none)
  | .rfloat64 => (some (.floatDec .f64), none)
  | .rmap _ _ => (none, none)
  | .rinterface => (none, none)
  | .rchan _ => (none, none)
  | .rfunc => (none, none)

/-- The field-type compilation loop inside `compileStruct`: compile each
field's type in declaration order, aborting at the first error. -/
def Decoder.compileFieldTypes :
    List Rtype → List (Option DecoderNode) × Option DecodeError
  | [] => ([], none)
  | t :: ts =>
      match Decoder.compile t with
      | (_, some err) => ([], some err)
      | (dec, none) =>
          match Decoder.compileFieldTypes ts with
          | (_, some err) => ([], some err)
          | (decs, none) => (dec :: decs, none)

end

mutual

/-- Compilation never returns an error, for any type: every switch case,
including the unhandled-kind default, yields a `nil` error. -/
theorem compile_snd_eq_none : ∀ t, (Decoder.compile t).2 = none
  | .ptr elem => by
      unfold Decoder.compile
      have h := compile_snd_eq_none elem
      cases hc : Decoder.compile elem with
      | mk dec err =>
          rw [hc] at h
          simp at h
          subst h
          simp
  | .struct' fields => by
      unfold Decoder.compile
      have h := compileFieldTypes_snd_eq_none fields
      cases hc : Decoder.compileFieldTypes fields with
      | mk decs err =>
          rw [hc] at h
          simp at h
          subst h
          simp
  | .slice elem => by
      unfold Decoder.compile
      have h := compile_snd_eq_none elem
      cases hc : Decoder.compile elem with
      | mk dec err =>
          rw [hc] at h
          simp at h
          subst h
          simp
  | .array elem n => by
      unfold Decoder.compile
      have h := compile_snd_eq_none elem
      cases hc : Decoder.compile elem with
      | mk dec err =>
          rw [hc] at h
          simp at h
          subst h
          simp
  | .rint => rfl
  | .rint8 => rfl
  | .rint16 => rfl
  | .rint32 => rfl
  | .rint64 => rfl
  | .ruint => rfl
  | .ruint8 => rfl
  | .ruint16 => rfl
  | .ruint32 => rfl
  | .ruint64 => rfl
  | .rstring => rfl
  | .rbool => rfl
  | .rfloat32 => rfl
  | .rfloat64 => rfl
  | .rmap _ _ => rfl
  | .rinterface => rfl
  | .rchan _ => rfl
  | .rfunc => rfl

theorem compileFieldTypes_snd_eq_none :
    ∀ ts, (Decoder.compileFieldTypes ts).2 = none
  | [] => rfl
  | t :: ts => by
      unfold Decoder.compileFieldTypes
      have h1 := compile_snd_eq_none t
      have h2 := compileFieldTypes_snd_eq_none ts
      cases hc1 : Decoder.compile t with
      | mk dec err =>
          rw [hc1] at h1
          simp at h1
          subst h1
          cases hc2 : Decoder.compileFieldTypes ts with
          | mk decs err2 =>
              rw [hc2] at h2
              simp at h2
              subst h2
              simp

end

/-! ### Program caches (src/unnamed/part_000 `Decode`, src/encode.go `encode`) -/

/-- State of the decode-side cache `cachedDecoder : map[string]decoder`,
with a ghost log `compiled` of the type names passed to `d.compile`
(appended once per compile invocation). -/
structure DecCacheState where
  cache : List (String × Option DecoderNode)
  compiled : List String

/-- Lookup `cachedDecoder[name]`; `some dec` plays `dec, exists := ...`
with `exists = true` (note a cached decoder may itself be `nil`). -/
def cachedDecoderGet (c : List (String × Option DecoderNode))
    (k : String) : Option (Option DecoderNode) :=
  (c.find? (fun e => e.1 == k)).map (fun e => e.2)

/-- The cache consultation of `Decoder.Decode` (and `Decoder.decode`):
on miss, compile; on a compile error return it (caching nothing);
otherwise publish the compiled decoder under `name` when `name` is
non-empty, and return it. -/
def decodeCompileStep (st : DecCacheState) (name : String) (typ : Rtype) :
    DecCacheState × Except DecodeError (Option DecoderNode) :=
  match cachedDecoderGet st.cache name with
  | some dec => (st, .ok dec)
  | none =>
      match Decoder.compile typ with
      | (_, some err) =>
          ({ st with compiled := st.compiled ++ [name] }, .error err)
      | (compiledDec, none) =>
          ({ cache :=
               if name != "" then (name, compiledDec) :: st.cache
               else st.cache,
             compiled := st.compiled ++ [name] },
           .ok compiledDec)

/-- A sequence of top-level decode calls threading the shared cache. -/
def runDecodeRequests (reqs : List (String × Rtype)) : DecCacheState :=
  reqs.foldl (fun st r => (decodeCompileStep st r.1 r.2).1) ⟨[], []⟩

/-- State of the encode-side cache `cachedOpcode` mapping a type pointer
to its `opcodeSet` (the indent-mode and plain compiled programs), with a
ghost log of `(typeptr, indentMode)` pairs passed to `compileHead`. -/
structure EncCacheState where
  cache : List (Nat × Nat × Nat)
  compiled : List (Nat × Bool)

/-- Lookup `cachedOpcode.get(typeptr)`. -/
def cachedOpcodeGet (c : List (Nat × Nat × Nat)) (k : Nat) :
    Option (Nat × Nat) :=
  (c.find? (fun e => e.1 == k)).map (fun e => e.2)

/-- The cache consultation of `Encoder.encode`: on a hit, use the cached
program for the requested indent mode (the pool's `copyOpcode` copy is
not a compilation); on a miss, compile BOTH indent modes with
`compileHead` (absent from the extract, abstracted as a pure function of
the type pointer and mode, per the spec "programs are pure functions of
the type"), publish the pair, and use the requested one. -/
def encodeCompileStep (compileHead : Nat → Bool → Nat)
    (st : EncCacheState) (typeptr : Nat) (enabledIndent : Bool) :
    EncCacheState × Nat :=
  match cachedOpcodeGet st.cache typeptr with
  | some codeSet => (st, if enabledIndent then codeSet.1 else codeSet.2)
  | none =>
      ({ cache :=
           (typeptr, compileHead typeptr true, compileHead typeptr false)
             :: st.cache,
         compiled := st.compiled ++ [(typeptr, true), (typeptr, false)] },
       if enabledIndent then compileHead typeptr true
       else compileHead typeptr false)

/-- A sequence of top-level encode calls threading the shared cache. -/
def runEncodeRequests (compileHead : Nat → Bool → Nat)
    (reqs : List (Nat × Bool)) : EncCacheState :=
  reqs.foldl (fun st r => (encodeCompileStep compileHead st r.1 r.2).1)
    ⟨[], []⟩

lemma decode_step_preserves (k : String) (hk : k ≠ "")
    (st : DecCacheState) (name : String) (typ : Rtype)
    (h1 : (cachedDecoderGet st.cache k).isSome = true
      ∨ List.count k st.compiled = 0)
    (h2 : List.count k st.compiled ≤ 1) :
    ((cachedDecoderGet (decodeCompileStep st name typ).1.cache k).isSome
        = true
      ∨ List.count k (decodeCompileStep st name typ).1.compiled = 0)
    ∧ List.count k (decodeCompileStep st name typ).1.compiled ≤ 1 := by
  unfold decodeCompileStep
  cases hlook : cachedDecoderGet st.cache name with
  | some dec => exact ⟨h1, h2⟩
  | none =>
      have herr := compile_snd_eq_none typ
      cases hc : Decoder.compile typ with
      | mk dec err =>
          rw [hc] at herr
          simp at herr
          subst herr
          simp only []
          by_cases hnk : name = k
          · subst hnk
            have hcnt : List.count name st.compiled = 0 := by
              rcases h1 with h1 | h1
              · rw [hlook] at h1
                simp at h1
              · exact h1
            have hne : (name != "") = true := by
              simp [hk]
            constructor
            · left
              simp [hne, cachedDecoderGet, List.find?_cons]
            · simp [List.count_append, hcnt]
          · have hb : (name == k) = false := by
              rw [beq_eq_false_iff_ne]
              exact hnk
            have hcount :
                List.count k (st.compiled ++ [name])
                  = List.count k st.compiled := by
              simp [List.count_append, List.count_cons, hb]
            constructor
            · rcases h1 with h1 | h1
              · left
                by_cases hne : (name != "") = true
                · simp only [hne, if_pos]
                  have hnamek : (name == k) = false := by
                    simp [hnk]
                  simpa [cachedDecoderGet, List.find?_cons, hnamek]
                    using h1
                · simp only [Bool.not_eq_true] at hne
                  simp only [hne]
                  simpa using h1
              · right
                simpa [hcount] using h1
            · simpa [hcount] using h2

lemma decode_run_invariant (k : String) (hk : k ≠ "")
    (reqs : List (String × Rtype)) :
    ∀ st : DecCacheState,
      ((cachedDecoderGet st.cache k).isSome = true
        ∨ List.count k st.compiled = 0) →
      List.count k st.compiled ≤ 1 →
      List.count k
        (reqs.foldl (fun st r => (decodeCompileStep st r.1 r.2).1) st).compiled
        ≤ 1 := by
  induction reqs with
  | nil => intro st _h1 h2; exact h2
  | cons r rs ih =>
      intro st h1 h2
      have h := decode_step_preserves k hk st r.1 r.2 h1 h2
      exact ih _ h.1 h.2

lemma encode_step_preserves (tp : Nat) (mode : Bool)
    (compileHead : Nat → Bool → Nat) (st : EncCacheState)
    (typeptr : Nat) (enabledIndent : Bool)
    (h1 : (cachedOpcodeGet st.cache tp).isSome = true
      ∨ List.count (tp, mode) st.compiled = 0)
    (h2 : List.count (tp, mode) st.compiled ≤ 1) :
    ((cachedOpcodeGet
        (encodeCompileStep compileHead st typeptr enabledIndent).1.cache
        tp).isSome = true
      ∨ List.count (tp, mode)
          (encodeCompileStep compileHead st typeptr enabledIndent).1.compiled
          = 0)
    ∧ List.count (tp, mode)
        (encodeCompileStep compileHead st typeptr enabledIndent).1.compiled
        ≤ 1 := by
  unfold encodeCompileStep
  cases hlook : cachedOpcodeGet st.cache typeptr with
  | some codeSet => exact ⟨h1, h2⟩
  | none =>
      simp only []
      by_cases hnk : typeptr = tp
      · subst hnk
        have hcnt : List.count (typeptr, mode) st.compiled = 0 := by
          rcases h1 with h1 | h1
          · rw [hlook] at h1
            simp at h1
          · exact h1
        constructor
        · left
          simp [cachedOpcodeGet, List.find?_cons]
        · have hone : List.count (typeptr, mode)
              [(typeptr, true), (typeptr, false)] ≤ 1 := by
            cases mode <;> simp [List.count_cons, beq_iff_eq]
          simp only [List.count_append, hcnt, Nat.zero_add]
          exact hone
      · have hb1 : (((typeptr, true) : Nat × Bool) == (tp, mode))
            = false := by
          rw [beq_eq_false_iff_ne]
          intro h
          exact hnk (congrArg Prod.fst h)
        have hb2 : (((typeptr, false) : Nat × Bool) == (tp, mode))
            = false := by
          rw [beq_eq_false_iff_ne]
          intro h
          exact hnk (congrArg Prod.fst h)
        have hcount :
            List.count (tp, mode)
                (st.compiled ++ [(typeptr, true), (typeptr, false)])
              = List.count (tp, mode) st.compiled := by
          simp [List.count_append, List.count_cons, hb1, hb2]
        constructor
        · rcases h1 with h1 | h1
          · left
            have htk : (typeptr == tp) = false := by
              simp [hnk]
            simpa [cachedOpcodeGet, List.find?_cons, htk] using h1
          · right
            simpa [hcount] using h1
        · simpa [hcount] using h2

lemma encode_run_invariant (tp : Nat) (mode : Bool)
    (compileHead : Nat → Bool → Nat) (reqs : List (Nat × Bool)) :
    ∀ st : EncCacheState,
      ((cachedOpcodeGet st.cache tp).isSome = true
        ∨ List.count (tp, mode) st.compiled = 0) →
      List.count (tp, mode) st.compiled ≤ 1 →
      List.count (tp, mode)
        (reqs.foldl
          (fun st r => (encodeCompileStep compileHead st r.1 r.2).1)
          st).compiled ≤ 1 := by
  induction reqs with
  | nil => intro st _h1 h2; exact h2
  | cons r rs ih =>
      intro st h1 h2
      have h := encode_step_preserves tp mode compileHead st r.1 r.2 h1 h2
      exact ih _ h.1 h.2

/-- C4: a program is compiled at most once per cache key.  For any
sequence of decode calls, a type key `k` (a Go type's `String()` name,
never empty) is passed to `compile` at most once; for any sequence of
encode calls, each `(typeptr, indentMode)` pair is passed to
`compileHead` at most once; and a repeat request of an already-published
key returns the cached program without recompiling (the state, including
the ghost compile log, is unchanged). -/
theorem program_cache_compiles_once (reqs : List (String × Rtype))
    (k : String) (typ : Rtype) (hk : k ≠ "")
    (compileHead : Nat → Bool → Nat) (ereqs : List (Nat × Bool))
    (tp : Nat) (mode : Bool) :
    List.count k (runDecodeRequests reqs).compiled ≤ 1
    ∧ List.count (tp, mode)
        (runEncodeRequests compileHead ereqs).compiled ≤ 1
    ∧ decodeCompileStep (runDecodeRequests [(k, typ)]) k typ
        = (runDecodeRequests [(k, typ)], .ok (Decoder.compile typ).1)
    ∧ encodeCompileStep compileHead
        (runEncodeRequests compileHead [(tp, mode)]) tp mode
        = (runEncodeRequests compileHead [(tp, mode)],
           if mode then compileHead tp true else compileHead tp false) := by
  refine ⟨?_, ?_, ?_, ?_⟩
  · exact decode_run_invariant k hk reqs ⟨[], []⟩ (Or.inr (by simp))
      (by simp)
  · exact encode_run_invariant tp mode compileHead ereqs ⟨[], []⟩
      (Or.inr (by simp)) (by simp)
  · have herr := compile_snd_eq_none typ
    cases hc : Decoder.compile typ with
    | mk dec err =>
        rw [hc] at herr
        simp at herr
        subst herr
        have hne : (k != "") = true := by simp [hk]
        have hst : runDecodeRequests [(k, typ)] = ⟨[(k, dec)], [k]⟩ := by
          simp [runDecodeRequests, decodeCompileStep, cachedDecoderGet,
            hc, hne, hk]
        rw [hst]
        simp [decodeCompileStep, cachedDecoderGet, List.find?_cons, hc]
  · have hst : runEncodeRequests compileHead [(tp, mode)]
        = ⟨[(tp, compileHead tp true, compileHead tp false)],
           [(tp, true), (tp, false)]⟩ := by
      simp [runEncodeRequests, encodeCompileStep, cachedOpcodeGet]
    rw [hst]
    simp [encodeCompileStep, cachedOpcodeGet, List.find?_cons]

/-- Witness for C4: concrete run with decode key `"*int"` and encode
pair `(1, false)`. -/
theorem program_cache_compiles_once_witness :
    ("*int" : String) ≠ ""
    ∧ (List.count "*int"
          (runDecodeRequests [("*int", Rtype.rint)]).compiled ≤ 1
      ∧ List.count (1, false)
          (runEncodeRequests (fun _ _ => 0) [(1, false)]).compiled ≤ 1
      ∧ decodeCompileStep (runDecodeRequests [("*int", Rtype.rint)])
          "*int" Rtype.rint
          = (runDecodeRequests [("*int", Rtype.rint)],
             .ok (Decoder.compile Rtype.rint).1)
      ∧ encodeCompileStep (fun _ _ => 0)
          (runEncodeRequests (fun _ _ => 0) [(1, false)]) 1 false
          = (runEncodeRequests (fun _ _ => 0) [(1, false)], 0)) :=
  ⟨by decide,
   program_cache_compiles_once [("*int", Rtype.rint)] "*int" Rtype.rint
     (by decide) (fun _ _ => 0) [(1, false)] 1 false⟩

/-- C5: compilation of an unhandled kind does NOT surface an
`UnsupportedType` error — the switch's missing default returns
`(nil, nil)` — and the subsequent cache publication in `Decode` stores
that `nil` decoder under the type's name.  Compilation never returns any
error for any type. -/
theorem compile_unsupported_kind_no_error :
    Decoder.compile (.rmap .rstring .rint) = (none, none)
    ∧ (∀ t, (Decoder.compile t).2 = none)
    ∧ decodeCompileStep ⟨[], []⟩ "map[string]int" (.rmap .rstring .rint)
        = (⟨[("map[string]int", none)], ["map[string]int"]⟩, .ok none) :=
  ⟨rfl, compile_snd_eq_none, rfl⟩

/-! ### Encoder (src/encode.go) -/

/-- The `Encoder` of src/encode.go.  `buf` is its append-only output
buffer; the writer `w` is modelled by `written`, the list of byte chunks
passed to `w.Write` in order; the pool and the per-encoder compiled-code
maps are not needed by the claims (the shared opcode cache is modelled
above as `EncCacheState`). -/
structure Encoder where
  buf : List Nat
  written : List (List Nat)
  enabledIndent : Bool
  enabledHTMLEscape : Bool
  prefixStr : List Nat
  indentStr : List Nat
  indent : Nat

/-- Embedding of `Encoder.reset`: truncate the buffer, clear the indent
level, restore the default toggles. -/
def Encoder.reset (e : Encoder) : Encoder :=
  { e with
    buf := []
    indent := 0
    enabledHTMLEscape := true
    enabledIndent := false }

/-- Embedding of `NewEncoder`: take an encoder from the pool, attach the
writer (fresh, so nothing written yet) and `reset` it. -/
def NewEncoder : Encoder :=
  Encoder.reset
    { buf := []
      written := []
      enabledIndent := false
      enabledHTMLEscape := true
      prefixStr := []
      indentStr := []
      indent := 0 }

/-- Decimal digits of a natural number as ASCII bytes, as
`strconv.AppendInt` produces them. -/
def natToBytes (n : Nat) : List Nat :=
  (Nat.toDigits 10 n).map Char.toNat

/-- Signed decimal bytes: the `strconv.AppendInt(buf, v, 10)` payload of
the source's `encodeInt64`. -/
def intToBytes (i : Int) : List Nat :=
  if i < 0 then 45 :: natToBytes i.natAbs else natToBytes i.toNat

/-- Values encoded in the claims' scenarios.  (The full value universe
of the engine is irrelevant to the buffer-management claims.) -/
inductive EncValue where
  | vint (i : Int)
  | vbool (b : Bool)
  | vnull

/-- Serialization of one value, following the source's primitive
emitters: `encodeInt64` appends the signed decimal (`strconv.AppendInt`),
`encodeBool` appends `true`/`false` (`strconv.AppendBool`), `encodeNull`
appends `null`.  No serialization ends with a newline byte. -/
def serializeValue : EncValue → List Nat
  | .vint i => intToBytes i
  | .vbool true => [116, 114, 117, 101]
  | .vbool false => [102, 97, 108, 115, 101]
  | .vnull => [110, 117, 108, 108]

/-- Modelled from the spec: the opcode interpreter `run` invoked by
`Encoder.encode` is absent from the extract; per the spec (section 4.4)
the per-type encoder "appends into a scratch byte buffer" and the
serialization it produces is the value's JSON text — it appends nothing
else.  The cache consultation of `encode` is modelled separately by
`encodeCompileStep`. -/
def Encoder.encode (e : Encoder) (v : EncValue) : Encoder :=
  { e with buf := e.buf ++ serializeValue v }

/-- Embedding of `Encoder.Encode`: run `encode` (appending the value's
serialization to `e.buf`), then pass `e.buf` — the whole buffer, exactly
as it stands — to `w.Write`.  No newline is appended and the buffer is
not truncated. -/
def Encoder.Encode (e : Encoder) (v : EncValue) : Encoder :=
  { e.encode v with written := e.written ++ [(e.encode v).buf] }

/-- C3: `Encode` of the integer `42` on a fresh encoder writes exactly
the bytes `"42"` — no trailing newline character — although its own doc
comment ("followed by a newline character") and the spec promise one. -/
theorem encode_writes_no_trailing_newline :
    (NewEncoder.Encode (.vint 42)).written = [[52, 50]]
    ∧ ([52, 50] : List Nat) ≠ [52, 50, 10] := by
  exact ⟨rfl, by decide⟩

/-- C7: `Encode` never truncates the buffer: the bytes it hands to the
writer are the previous buffer contents followed by the new value's
serialization.  Concretely, encoding `1` then `2` on the same encoder
writes `"1"` and then `"12"` — the second write repeats the first call's
output — not `"2"` alone. -/
theorem encoder_buffer_not_truncated :
    (∀ (e : Encoder) (v : EncValue),
      (Encoder.Encode e v).buf = e.buf ++ serializeValue v)
    ∧ ((NewEncoder.Encode (.vint 1)).Encode (.vint 2)).written
        = [[49], [49, 50]]
    ∧ ([49, 50] : List Nat) ≠ [50] := by
  exact ⟨fun e v => rfl, rfl, by decide⟩

/-! ### Decoder.Decode's read loop and the unknown-field toggle
(src/unnamed/part_000) -/

/-- The `Decoder` of the source: it holds only the reader `r` (modelled
as the list of chunks successive `Read` calls deliver; an exhausted
reader returns `(0, io.EOF)`) — notably it has NO field recording an
unknown-fields policy.  The `buffered` closure is not needed by the
claims. -/
structure Decoder where
  r : List (List Nat)

/-- Embedding of `Decoder.DisallowUnknownFields`: the body in the source
is empty, so the call changes nothing. -/
def Decoder.DisallowUnknownFields (d : Decoder) : Decoder := d

/-- The read loop of `Decoder.Decode`: read a chunk; if the read yields
zero bytes or end-of-input, return success immediately; otherwise set
the context buffer to EXACTLY this chunk (`ctx.setBuf(buf[:n])`) and run
the compiled decoder on it, aborting on its error.  Each iteration's
buffer is this chunk alone — nothing carries over from the previous
chunk. -/
def decodeLoop {α : Type} (dec : List Nat → α → Except DecodeError α) :
    List (List Nat) → α → Except DecodeError α
  | [], dest => .ok dest
  | buf :: rest, dest =>
      if buf.length = 0 then .ok dest
      else
        match dec buf dest with
        | .error e => .error e
        | .ok d => decodeLoop dec rest d

/-- Embedding of `Decoder.Decode` after its pointer-kind check and cache
consultation (modelled separately by `decodeCompileStep`): drive the
compiled decoder `dec` over the reader's chunks. -/
def Decoder.Decode {α : Type} (d : Decoder)
    (dec : List Nat → α → Except DecodeError α) (dest : α) :
    Except DecodeError α :=
  decodeLoop dec d.r dest

/-- Modelled from the spec: the string decoder's scan loop
(`newStringDecoder` is absent from the extract).  After the opening
quote, collect bytes until the unescaped closing quote; a backslash
consumes the following byte (the claims exercise no escape sequences, so
escape *decoding* is not needed); if the buffer ends before the closing
quote the token is incomplete and the unexpected-end-of-JSON error is
returned (spec section 4.4: "UnexpectedEOF if the token is
incomplete"). -/
def stringScan (buf : List Nat) (cursor : Nat) :
    Except DecodeError (List Nat × Nat) :=
  if h : cursor < buf.length then
    if buf.getD cursor 0 == 34 then .ok ([], cursor + 1)
    else if buf.getD cursor 0 == 92 then
      if h2 : cursor + 1 < buf.length then
        match stringScan buf (cursor + 2) with
        | .ok (rest, c) => .ok (buf.getD (cursor + 1) 0 :: rest, c)
        | .error e => .error e
      else .error (.unexpectedEndOfJSON "string" (cursor + 1))
    else
      match stringScan buf (cursor + 1) with
      | .ok (rest, c) => .ok (buf.getD cursor 0 :: rest, c)
      | .error e => .error e
  else .error (.unexpectedEndOfJSON "string" cursor)
termination_by buf.length - cursor
decreasing_by all_goals simp_wf; omega

/-- Modelled from the spec: the string decoder's entry — skip ASCII
whitespace, require an opening quote (anything else is the spec's
`UnexpectedToken`), then scan the string body. -/
def stringDecodeByte (buf : List Nat) (cursor : Nat) :
    Except DecodeError (List Nat × Nat) :=
  if h : cursor < buf.length then
    if isSpaceByte (buf.getD cursor 0) then
      stringDecodeByte buf (cursor + 1)
    else if buf.getD cursor 0 == 34 then stringScan buf (cursor + 1)
    else .error (.unexpectedToken "string" (buf.getD cursor 0) cursor)
  else .error (.unexpectedEndOfJSON "string" cursor)
termination_by buf.length - cursor
decreasing_by simp_wf; omega

/-- The compiled decoder for a `string` destination, as `decodeLoop`
invokes it on one buffer: decode the string starting at cursor 0 of the
chunk and store the decoded bytes into the destination. -/
def stringDecodeChunk (buf : List Nat) (_dest : List Nat) :
    Except DecodeError (List Nat) :=
  match stringDecodeByte buf 0 with
  | .ok (bytes, _) => .ok bytes
  | .error e => .error e

/-- C1: when the reader yields the value `"12345"` split as `"123` and
`45"` in two chunks, `Decoder.Decode` does NOT assemble the token: the
first iteration decodes the chunk `"123` as a complete buffer on its
own, the string token is unterminated there, and `Decode` returns the
unexpected-end-of-JSON error instead of the string `12345`. -/
theorem decode_chunked_string_not_assembled :
    Decoder.Decode ⟨[[34, 49, 50, 51], [52, 53, 34]]⟩
        stringDecodeChunk []
      = .error (.unexpectedEndOfJSON "string" 4)
    ∧ Decoder.Decode ⟨[[34, 49, 50, 51], [52, 53, 34]]⟩
        stringDecodeChunk []
      ≠ .ok [49, 50, 51, 52, 53] := by
  have h : Decoder.Decode ⟨[[34, 49, 50, 51], [52, 53, 34]]⟩
      stringDecodeChunk []
      = .error (.unexpectedEndOfJSON "string" 4) := by
    simp [Decoder.Decode, decodeLoop, stringDecodeChunk, stringDecodeByte,
      stringScan, isSpaceByte]
  refine ⟨h, ?_⟩
  rw [h]
  intro hcontra
  exact Except.noConfusion hcontra

/-- C10: if the reader yields no bytes on the first read — no chunk at
all (immediate end-of-input), or a zero-byte chunk — `Decoder.Decode`
returns success without invoking the compiled decoder, leaving the
destination unmodified. -/
theorem decode_empty_reader_returns_ok :
    ∀ (α : Type) (dec : List Nat → α → Except DecodeError α) (dest : α)
      (rest : List (List Nat)),
      Decoder.Decode ⟨[]⟩ dec dest = .ok dest
      ∧ Decoder.Decode ⟨[] :: rest⟩ dec dest = .ok dest :=
  fun _ _ _ _ => ⟨rfl, rfl⟩

/-! ### Unknown-field policy (C6) -/

/-- The struct decoder value.  `newStructDecoder` is absent from the
extract; per the source's construction pattern
(`&structDecoder{fieldMap: fieldMap}`) every flag field starts at its Go
zero value, so `disallowUnknownFields` is `false` — and nothing in the
source ever sets it (`Decoder.DisallowUnknownFields` has an empty body,
`floatDecoder.setDisallowUnknownFields` discards its argument). -/
structure structDecoder where
  fieldMap : FieldMap
  disallowUnknownFields : Bool

/-- Construction of the struct decoder from the compiled field map, with
the flag at its zero value. -/
def newStructDecoder (m : FieldMap) : structDecoder :=
  { fieldMap := m, disallowUnknownFields := false }

/-- Modelled from the spec (section 4.5): dispatch of one JSON object
key — look up the exact key, then the ASCII-lowercased key; on a miss
either skip the value (`.ok none`) or return `UnknownField`, depending
on the `disallowUnknownFields` flag. -/
def structDecoderDispatchKey (d : structDecoder) (key : String) :
    Except DecodeError (Option structFieldSet) :=
  match fieldMapGet d.fieldMap key with
  | some fs => .ok (some fs)
  | none =>
      match fieldMapGet d.fieldMap (toLowerStr key) with
      | some fs => .ok (some fs)
      | none =>
          if d.disallowUnknownFields then .error (.unknownField key)
          else .ok none

/-- Modelled from the spec: decode the keys of one object in input
order, recording which field each matched key was assigned to and
skipping unmatched keys (when the flag permits). -/
def structDecoderDecodeKeys (d : structDecoder) :
    List String → Except DecodeError (List (String × structFieldSet))
  | [] => .ok []
  | k :: ks =>
      match structDecoderDispatchKey d k with
      | .error e => .error e
      | .ok none => structDecoderDecodeKeys d ks
      | .ok (some fs) =>
          match structDecoderDecodeKeys d ks with
          | .error e => .error e
          | .ok assigns => .ok ((k, fs) :: assigns)

/-- The record `{x : int}` of the claim's scenario: one exported field
`X` with json tag `x`. -/
def exFieldsC6 : List StructField :=
  [⟨"X", ["x"], 0, false, false⟩]

/-- C6: `DisallowUnknownFields` is a no-op — it is the identity on the
`Decoder` (empty body, and the `Decoder` has no policy field it could
set) — so the struct decoder's flag keeps its zero value `false` and
decoding `{"x":1,"y":2}` into `{x:int}` skips the unknown key `y`
without error even after the call.  The `UnknownField` error would be
produced only under `disallowUnknownFields = true`, a state the public
API never reaches. -/
theorem disallowUnknownFields_is_noop :
    (∀ d : Decoder, d.DisallowUnknownFields = d)
    ∧ (newStructDecoder
        (Decoder.compileStruct exFieldsC6)).disallowUnknownFields = false
    ∧ structDecoderDecodeKeys
        (newStructDecoder (Decoder.compileStruct exFieldsC6)) ["x", "y"]
      = .ok [("x", ⟨0, 0⟩)]
    ∧ structDecoderDecodeKeys
        { newStructDecoder (Decoder.compileStruct exFieldsC6) with
            disallowUnknownFields := true } ["x", "y"]
      = .error (.unknownField "y") := by
  refine ⟨fun d => rfl, rfl, rfl, rfl⟩

end GoJson
